import Mathlib

/-!
# Drag-and-drop sprite demo: `game.go` and `strokeSource.go`

A shallow embedding of `Game` (package `main`) and of the per-frame methods
`spriteAt`, `updateStroke`, `Update`, `Draw` and the constructor `NewGame`.

* `*Sprite` values are addresses (`SpritePtr`); the sprite objects they point to
  live in `Game.mem`, so that two references to one sprite alias.
* the `interface{}` held by a stroke is `DragObj`: the nil interface, or a value
  of dynamic type `*Sprite` (which may itself be the nil pointer).
* a run-time panic is the result `none`.
* `map[*Stroke]struct{}` is a list of strokes without an order of its own: every
  `range` over it takes the order of iteration as an argument.
* coordinates are mathematical integers (`Int`).
* the host engine is the pair of its previous and its current tick; the edge queries
  ("just pressed", "just released") compare the two.
-/

namespace Drag

/-! ## Host engine -/

/-- The identifier of a touch, `ebiten.TouchID`. -/
abbrev TouchID := Int

/-- What the host engine knows about the pointer devices at one tick. -/
structure HostFrame where
  mouseDown : Bool
  cursor : Int × Int
  touchIDs : List TouchID
  touchPos : TouchID → Int × Int

/-- The input state a frame callback can query: the tick before and the current tick. -/
structure Host where
  prev : HostFrame
  cur : HostFrame

/-- Modelled from the spec: the host's "pointer-button-just-pressed" query
(`inpututil.IsMouseButtonJustPressed(ebiten.MouseButtonLeft)`), true on the tick
the button goes from released to pressed. -/
def Host.IsMouseButtonJustPressed (h : Host) : Bool :=
  h.cur.mouseDown && !h.prev.mouseDown

/-! ## StrokeSource (`strokeSource.go`) -/

/-- The two implementations of the interface `StrokeSource` that `game.go` builds:
`&MouseStrokeSource{}` and `&TouchStrokeSource{id}`. -/
inductive StrokeSource where
  | MouseStrokeSource : StrokeSource
  | TouchStrokeSource (id : TouchID) : StrokeSource
deriving DecidableEq, Repr

/-- Modelled from the spec: `Position()` of the two sources: "current pointer/touch
coordinates in screen space; for touch, looked up by stored touch identifier". What the
host answers for an identifier that is not active is left to `touchPos`. -/
def StrokeSource.Position (src : StrokeSource) (h : Host) : Int × Int :=
  match src with
  | .MouseStrokeSource => h.cur.cursor
  | .TouchStrokeSource id => h.cur.touchPos id

/-- Modelled from the spec: `IsJustReleased()` of the two sources: "true exactly on
the frame transition from pressed to released for this source". -/
def StrokeSource.IsJustReleased (src : StrokeSource) (h : Host) : Bool :=
  match src with
  | .MouseStrokeSource => !h.cur.mouseDown && h.prev.mouseDown
  | .TouchStrokeSource id => !decide (id ∈ h.cur.touchIDs) && decide (id ∈ h.prev.touchIDs)

/-! ## Sprite -/

/-- An image handle; only its size matters here (`ebitenImage.Size()`). -/
structure Image where
  w : Int
  h : Int
deriving DecidableEq, Repr

/-- The struct `Sprite` as `NewGame` fills it: `image`, `x`, `y`. -/
structure Sprite where
  image : Image
  x : Int
  y : Int
deriving DecidableEq, Repr

/-- A non-nil `*Sprite`. -/
abbrev SpritePtr := Nat

/-- Modelled from the spec: `Sprite.In`: "true if the point lies within the image's
axis-aligned bounding box at the sprite's current position". -/
def Sprite.In (s : Sprite) (x y : Int) : Bool :=
  decide (s.x ≤ x ∧ x < s.x + s.image.w ∧ s.y ≤ y ∧ y < s.y + s.image.h)

/-- Modelled from the spec: `Sprite.MoveBy`: "translates position; no bounds
clamping". -/
def Sprite.MoveBy (s : Sprite) (dx dy : Int) : Sprite :=
  { s with x := s.x + dx, y := s.y + dy }

/-! ## Stroke -/

/-- The `interface{}` value a stroke holds as its dragging object. -/
inductive DragObj where
  /-- the nil interface, as stored by `SetDraggingObject(nil)` -/
  | nilIface : DragObj
  /-- a value of dynamic type `*Sprite`: `none` is the nil pointer -/
  | sprite (p : Option SpritePtr) : DragObj
deriving DecidableEq, Repr

/-- The type assertion `v.(*Sprite)`: it panics (`none`) on the nil interface. -/
def DragObj.assertSprite : DragObj → Option (Option SpritePtr)
  | .nilIface => none
  | .sprite p => some p

/-- Modelled from the spec: the struct `Stroke`: "source, initial position, current
position, released flag, attached dragging object". -/
structure Stroke where
  source : StrokeSource
  initX : Int
  initY : Int
  currentX : Int
  currentY : Int
  released : Bool
  draggingObject : DragObj
deriving DecidableEq, Repr

/-- Modelled from the spec: `NewStroke`: "captures current position as both initial
and current; state = active". No dragging object is stored yet. -/
def NewStroke (source : StrokeSource) (h : Host) : Stroke :=
  let c := source.Position h
  { source := source, initX := c.1, initY := c.2, currentX := c.1, currentY := c.2,
    released := false, draggingObject := .nilIface }

/-- Modelled from the spec: `Stroke.Update`: "if not yet released, refreshes current
position from source and checks isJustReleased(); on first true, transitions to
released and freezes current position at the release-frame reading". -/
def Stroke.Update (s : Stroke) (h : Host) : Stroke :=
  if s.released then s
  else
    let c := s.source.Position h
    let s1 := { s with currentX := c.1, currentY := c.2 }
    if s.source.IsJustReleased h then { s1 with released := true } else s1

/-- Modelled from the spec: `Stroke.IsReleased`. -/
def Stroke.IsReleased (s : Stroke) : Bool := s.released

/-- Modelled from the spec: `Stroke.Position`, the stroke's position (at creation
the initial and the current position coincide). -/
def Stroke.Position (s : Stroke) : Int × Int := (s.currentX, s.currentY)

/-- Modelled from the spec: `Stroke.PositionDiff`: "current − initial". -/
def Stroke.PositionDiff (s : Stroke) : Int × Int :=
  (s.currentX - s.initX, s.currentY - s.initY)

/-- Modelled from the spec: `Stroke.DraggingObject`. -/
def Stroke.DraggingObject (s : Stroke) : DragObj := s.draggingObject

/-- Modelled from the spec: `Stroke.SetDraggingObject`. -/
def Stroke.SetDraggingObject (s : Stroke) (object : DragObj) : Stroke :=
  { s with draggingObject := object }

/-! ## Game (`game.go`) -/

/-- The struct `Game`, with the sprite objects its pointers refer to. -/
structure Game where
  touchIDs : List TouchID
  strokes : List Stroke
  sprites : List SpritePtr
  mem : SpritePtr → Sprite

/-- The loop of `spriteAt`, entered with `i = n - 1`: it scans the indices
`n - 1, …, 0` and returns the first sprite the point is in (an index outside the slice,
which `spriteAt` never passes, would panic). -/
def Game.spriteAtFrom (g : Game) (x y : Int) : Nat → Option SpritePtr
  | 0 => none
  | i + 1 =>
    match g.sprites[i]? with
    | none => none
    | some s => if (g.mem s).In x y then some s else g.spriteAtFrom x y i

/-- `func (g *Game) spriteAt(x, y int) *Sprite`; `none` is the nil pointer. -/
def Game.spriteAt (g : Game) (x y : Int) : Option SpritePtr :=
  g.spriteAtFrom x y g.sprites.length

/-- The search of `updateStroke` for `s` in `g.sprites`: `index` starts at `-1`
and becomes the first `i` with `g.sprites[i] == s`. -/
def indexOfSprite (s : SpritePtr) : List SpritePtr → Nat → Int
  | [], _ => -1
  | ss :: rest, i => if ss = s then (i : Int) else indexOfSprite s rest (i + 1)

/-- The slice expression `a[:hi]` for `hi ≤ len(a)`, the only case that arises (an index
found in `a` or `-1`): it panics when `hi` is negative. -/
def sliceTo (a : List SpritePtr) (hi : Int) : Option (List SpritePtr) :=
  if 0 ≤ hi ∧ hi ≤ a.length then some (a.take hi.toNat) else none

/-- The slice expression `a[lo:]`, which panics unless `0 ≤ lo ≤ len(a)`. -/
def sliceFrom (a : List SpritePtr) (lo : Int) : Option (List SpritePtr) :=
  if 0 ≤ lo ∧ lo ≤ a.length then some (a.drop lo.toNat) else none

/-- `func (g *Game) updateStroke(stroke *Stroke)`: the game and the stroke after
the call, or `none` when the call panics. -/
def Game.updateStroke (g : Game) (stroke : Stroke) (h : Host) : Option (Game × Stroke) :=
  let stroke := stroke.Update h
  if !stroke.IsReleased then some (g, stroke)
  else
    match stroke.DraggingObject.assertSprite with
    | none => none
    | some none => some (g, stroke)
    | some (some s) =>
      let d := stroke.PositionDiff
      let g := { g with mem := fun p => if p = s then (g.mem s).MoveBy d.1 d.2 else g.mem p }
      let index := indexOfSprite s g.sprites 0
      match sliceTo g.sprites index, sliceFrom g.sprites (index + 1) with
      | some front, some back =>
        let g := { g with sprites := front ++ back }
        let g := { g with sprites := g.sprites ++ [s] }
        some (g, stroke.SetDraggingObject .nilIface)
      | _, _ => none

/-- The stroke the two creation sites of `Update` build:
`s := NewStroke(src); s.SetDraggingObject(g.spriteAt(s.Position()))`. -/
def Game.createStroke (g : Game) (src : StrokeSource) (h : Host) : Stroke :=
  let s := NewStroke src h
  s.SetDraggingObject (.sprite (g.spriteAt s.Position.1 s.Position.2))

/-- The body of the two creation sites of `Update`: the new stroke is built and
inserted, `g.strokes[s] = struct{}{}`. -/
def Game.addStroke (g : Game) (src : StrokeSource) (h : Host) : Game :=
  { g with strokes := g.strokes ++ [g.createStroke src h] }

/-- Lines 114–123 of `Update`: one stroke for a mouse button just pressed, then one
for each identifier in `g.touchIDs`. -/
def Game.press (g : Game) (h : Host) : Game :=
  let g := if h.IsMouseButtonJustPressed then g.addStroke .MouseStrokeSource h else g
  g.touchIDs.foldl (fun g id => g.addStroke (.TouchStrokeSource id) h) g

/-- Lines 125–130 of `Update`, `for s := range g.strokes`, over the strokes in the
order `visit`: the game after the loop and the strokes left in the map. -/
def Game.rangeStrokes (g : Game) (h : Host) : List Stroke → Option (Game × List Stroke)
  | [] => some (g, [])
  | s :: rest =>
    match g.updateStroke s h with
    | none => none
    | some (g1, s1) =>
      match Game.rangeStrokes g1 h rest with
      | none => none
      | some (g2, kept) => some (g2, if s1.IsReleased then kept else s1 :: kept)

/-- The Go type `error`; `Update` never builds a value of it. -/
inductive GoError where
  | mk : GoError
deriving DecidableEq, Repr

/-- `func (g *Game) Update() error`. `visit` is the order in which
`range g.strokes` yields the strokes of the map (after the insertions); the result is
the game and the returned error (`none` is the nil error), or `none` on a panic. -/
def Game.Update (g : Game) (h : Host) (visit : List Stroke) : Option (Game × Option GoError) :=
  let g := g.press h
  match g.rangeStrokes h visit with
  | none => none
  | some (g1, kept) => some ({ g1 with strokes := kept }, none)

/-! ### Draw -/

/-- One call `sprite.Draw(screen, dx, dy, alpha)`: the receiver and its arguments. -/
structure DrawCall where
  sprite : SpritePtr
  dx : Int
  dy : Int
  alpha : ℚ
deriving DecidableEq, Repr

/-- Modelled from the spec: `Sprite.Draw`: "renders the image at position + (dx, dy)
with given opacity; pure side effect on the render target, no state mutation". The
render target is the sequence of calls made on it. -/
def SpriteDraw (sprite : SpritePtr) (screen : List DrawCall) (dx dy : Int) (alpha : ℚ) :
    List DrawCall :=
  screen ++ [{ sprite := sprite, dx := dx, dy := dy, alpha := alpha }]

/-- Lines 135–140 of `Draw`: the set `draggingSprites`, built over the strokes in
the order given. -/
def collectDragging (draggingSprites : List SpritePtr) : List Stroke → Option (List SpritePtr)
  | [] => some draggingSprites
  | s :: rest =>
    match s.DraggingObject.assertSprite with
    | none => none
    | some none => collectDragging draggingSprites rest
    | some (some sprite) => collectDragging (sprite :: draggingSprites) rest

/-- Lines 142–147 of `Draw`: the sprites that are not being dragged, back to front. -/
def drawResting (draggingSprites : List SpritePtr) (screen : List DrawCall) :
    List SpritePtr → List DrawCall
  | [] => screen
  | s :: rest =>
    if s ∈ draggingSprites then drawResting draggingSprites screen rest
    else drawResting draggingSprites (SpriteDraw s screen 0 0 1) rest

/-- Lines 148–153 of `Draw`: the dragged sprites, over the strokes in the order given. -/
def drawDragged (screen : List DrawCall) : List Stroke → Option (List DrawCall)
  | [] => some screen
  | s :: rest =>
    let d := s.PositionDiff
    match s.DraggingObject.assertSprite with
    | none => none
    | some none => drawDragged screen rest
    | some (some sprite) => drawDragged (SpriteDraw sprite screen d.1 d.2 (1 / 2)) rest

/-- `func (g *Game) Draw(screen *ebiten.Image)`. `visit1` and `visit2` are the orders
in which the two `range g.strokes` loops yield the strokes; the result is the game and
the render target after the call, or `none` on a panic. -/
def Game.Draw (g : Game) (screen : List DrawCall) (visit1 visit2 : List Stroke) :
    Option (Game × List DrawCall) :=
  match collectDragging [] visit1 with
  | none => none
  | some draggingSprites =>
    let screen := drawResting draggingSprites screen g.sprites
    match drawDragged screen visit2 with
    | none => none
    | some screen => some (g, screen)

/-! ### NewGame -/

/-- `rand.Intn(n)`: it panics when `n ≤ 0`, else the raw draw `r` is reduced into `[0, n)`. -/
def Intn (r : Nat) (n : Int) : Option Int :=
  if n ≤ 0 then none else some ((r : Int) % n)

/-- The variables of `NewGame` while it builds the sprites: the slice `sprites`, the
sprite objects allocated so far, the next free address and the number of random draws. -/
structure Building where
  sprites : List SpritePtr
  mem : SpritePtr → Sprite
  next : SpritePtr
  draws : Nat

/-- The loop `for i := 0; i < 3; i++` of `NewGame`, with `n` iterations to go. -/
def newSprites (screenWidth screenHeight : Int) (rand : Nat → Nat) (img : Image) :
    Nat → Building → Option Building
  | 0, b => some b
  | n + 1, b =>
    match Intn (rand b.draws) (screenWidth - img.w),
          Intn (rand (b.draws + 1)) (screenHeight - img.h) with
    | some x, some y =>
      let s := b.next
      newSprites screenWidth screenHeight rand img n
        { sprites := b.sprites ++ [s],
          mem := fun p => if p = s then { image := img, x := x, y := y } else b.mem p,
          next := b.next + 1,
          draws := b.draws + 2 }
    | _, _ => none

/-- The loop `for _, img := range images` of `NewGame`. -/
def newSpritesAll (screenWidth screenHeight : Int) (rand : Nat → Nat) :
    List Image → Building → Option Building
  | [], b => some b
  | img :: rest, b =>
    match newSprites screenWidth screenHeight rand img 3 b with
    | none => none
    | some b1 => newSpritesAll screenWidth screenHeight rand rest b1

/-- `func NewGame() *Game`. The constants `screenWidth`, `screenHeight`, the global
`images` and the random source are arguments; `none` is a panic of `rand.Intn`. -/
def NewGame (screenWidth screenHeight : Int) (images : List Image) (rand : Nat → Nat) :
    Option Game :=
  match newSpritesAll screenWidth screenHeight rand images
      { sprites := [], mem := fun _ => { image := { w := 0, h := 0 }, x := 0, y := 0 },
        next := 0, draws := 0 } with
  | none => none
  | some b => some { touchIDs := [], strokes := [], sprites := b.sprites, mem := b.mem }

/-- The states of a session: the game and the host's latest tick, starting from
`NewGame` and advanced by `Update` under any host input and any order of iteration
over the stroke map. -/
inductive Reachable (screenWidth screenHeight : Int) (images : List Image) (rand : Nat → Nat) :
    Game → HostFrame → Prop
  | init (g : Game) (h0 : HostFrame) :
      NewGame screenWidth screenHeight images rand = some g →
      Reachable screenWidth screenHeight images rand g h0
  | update (g : Game) (prev cur : HostFrame) (visit : List Stroke) (g1 : Game)
      (err : Option GoError) :
      Reachable screenWidth screenHeight images rand g prev →
      visit.Perm (g.press { prev := prev, cur := cur }).strokes →
      g.Update { prev := prev, cur := cur } visit = some (g1, err) →
      Reachable screenWidth screenHeight images rand g1 cur


/-! ## Vocabulary of the statements -/

/-- The game after a completed drag of the sprite `s` found at index `i`. -/
def Game.dragged (g : Game) (s : SpritePtr) (d : Int × Int) (i : Nat) : Game :=
  { g with
    mem := fun p => if p = s then (g.mem s).MoveBy d.1 d.2 else g.mem p
    sprites := g.sprites.eraseIdx i ++ [s] }

/-! ## Scenes of the scenarios -/

/-- The scene of the overlap scenario: sprite `A` (address 0, at index 0) and sprite
`B` (address 1, at index 1), both 20×20 and both covering `(5, 5)`. -/
def overlapGame : Game :=
  { touchIDs := [], strokes := [], sprites := [0, 1],
    mem := fun p => if p = 0 then { image := { w := 20, h := 20 }, x := 0, y := 0 }
                    else { image := { w := 20, h := 20 }, x := 3, y := 2 } }

/-- A host frame with no touch. -/
def frameAt (mouseDown : Bool) (x y : Int) : HostFrame :=
  { mouseDown := mouseDown, cursor := (x, y), touchIDs := [], touchPos := fun _ => (0, 0) }

/-- The scene of the drag scenario: one sprite (address 0) at `(10, 10)`, sized 20×20. -/
def dragGame : Game :=
  { touchIDs := [], strokes := [], sprites := [0],
    mem := fun _ => { image := { w := 20, h := 20 }, x := 10, y := 10 } }

/-- The tick of the press at `(15, 15)`. -/
def dragPress : Host := { prev := frameAt false 0 0, cur := frameAt true 15 15 }

/-- The tick of the release at `(15, 45)`. -/
def dragRelease : Host := { prev := frameAt true 15 30, cur := frameAt false 15 45 }

/-- The stroke of the drag scenario, as the press at `(15, 15)` creates it. -/
def dragStroke : Stroke := dragGame.createStroke .MouseStrokeSource dragPress

/-- The scene of the reordering example: three sprites, the middle one (address 5)
being dragged. -/
def threeGame : Game :=
  { touchIDs := [], strokes := [], sprites := [4, 5, 6],
    mem := fun p => { image := { w := 10, h := 10 }, x := 20 * p, y := 0 } }

/-- The stroke of the reordering example: pressed on sprite 5 at `(105, 5)`. -/
def threeStroke : Stroke :=
  threeGame.createStroke .MouseStrokeSource
    { prev := frameAt false 0 0, cur := frameAt true 105 5 }

/-- The tick of the press at `(1000, 1000)`, where no sprite of `dragGame` is. -/
def farPress : Host := { prev := frameAt false 0 0, cur := frameAt true 1000 1000 }

/-- The tick of the release of the press at `(1000, 1000)`. -/
def farRelease : Host := { prev := frameAt true 1000 1000, cur := frameAt false 1000 1000 }

/-- The stroke the press at `(1000, 1000)` creates. -/
def farStroke : Stroke := dragGame.createStroke .MouseStrokeSource farPress

/-- A stroke of the touch 7 that drags sprite 0 of `dragGame`. -/
def touchStroke : Stroke :=
  { source := .TouchStrokeSource 7, initX := 12, initY := 12, currentX := 12, currentY := 12,
    released := false, draggingObject := .sprite (some 0) }

/-- The scene of a frame with two active strokes: the mouse stroke pressed at
`(1000, 1000)` and the stroke of touch 7. -/
def twoStrokesGame : Game := { dragGame with strokes := [farStroke, touchStroke] }

/-- The tick at which the mouse button is released while touch 7 stays down, now at
`(13, 14)`. -/
def mouseUpTouchDown : Host :=
  { prev := { mouseDown := true, cursor := (1000, 1000), touchIDs := [7],
              touchPos := fun _ => (12, 12) },
    cur := { mouseDown := false, cursor := (1000, 1000), touchIDs := [7],
             touchPos := fun _ => (13, 14) } }

/-- The dragging object of `st` has dynamic type `*Sprite`, and the sprite it points
to, if any, is an element of `g.sprites`. -/
def Attached (g : Game) (st : Stroke) : Prop :=
  ∃ p : Option SpritePtr, st.DraggingObject = .sprite p ∧ ∀ s, p = some s → s ∈ g.sprites

/-- One frame in which the stroke map is ranged over in the order of insertion; a
panic leaves the game as it was. -/
def frame (g : Game) (prev cur : HostFrame) : Game :=
  match g.Update { prev := prev, cur := cur } (g.press { prev := prev, cur := cur }).strokes with
  | some (g1, _) => g1
  | none => g

/-- The image set of the demo session: one image of 20×20. -/
def demoImages : List Image := [{ w := 20, h := 20 }]

/-- The random draws of the demo session: the sprites land at `(0, 10)`, `(20, 30)` and
`(40, 50)` on the 640×480 screen. -/
def demoRand (k : Nat) : Nat := 10 * k

/-- The game `NewGame` builds in the demo session. -/
def demoGame0 : Game := (NewGame 640 480 demoImages demoRand).getD dragGame

/-- The demo session after the press at `(5, 15)`, on the sprite at address 0. -/
def demoGame1 : Game := frame demoGame0 (frameAt false 0 0) (frameAt true 5 15)

/-- The demo session after the release at `(105, 115)`. -/
def demoGame2 : Game := frame demoGame1 (frameAt true 5 15) (frameAt false 105 115)

/-- The draw call `Draw` makes for a stroke in its last loop, if it makes one. -/
def draggedCall (st : Stroke) : Option DrawCall :=
  match st.DraggingObject with
  | .sprite (some sprite) =>
    some { sprite := sprite, dx := st.PositionDiff.1, dy := st.PositionDiff.2, alpha := 1 / 2 }
  | _ => none

/-- The draw call `Draw` makes for a sprite that is not being dragged. -/
def restingCall (s : SpritePtr) : DrawCall := { sprite := s, dx := 0, dy := 0, alpha := 1 }

/-- The demo session in mid-drag: after the press at `(5, 15)` the pointer is at `(55, 65)`. -/
def demoGameMid : Game := frame demoGame1 (frameAt true 5 15) (frameAt true 55 65)

/-- A tick on which the host reports the touch 7, newly down at `(5, 15)`. -/
def touchPress : Host :=
  { prev := frameAt false 0 0,
    cur := { mouseDown := false, cursor := (0, 0), touchIDs := [7],
             touchPos := fun _ => (5, 15) } }

/-! # Theorems -/

/-! ## The hit test -/

theorem spriteAtFrom_some (g : Game) (x y : Int) (s : SpritePtr) :
    ∀ n, n ≤ g.sprites.length → g.spriteAtFrom x y n = some s →
      ∃ i, i < n ∧ g.sprites[i]? = some s ∧ (g.mem s).In x y = true ∧
        ∀ j s1, i < j → j < n → g.sprites[j]? = some s1 → (g.mem s1).In x y = false := by
  intro n
  induction n with
  | zero => intro _ h; simp [Game.spriteAtFrom] at h
  | succ i ih =>
    intro hn h
    rw [Game.spriteAtFrom] at h
    cases hi : g.sprites[i]? with
    | none => simp [hi] at h
    | some t =>
      simp only [hi] at h
      by_cases hin : (g.mem t).In x y = true
      · simp only [hin, if_true, Option.some.injEq] at h
        subst h
        exact ⟨i, Nat.lt_succ_self i, hi, hin, fun j s1 h1 h2 _ => absurd h2 (by omega)⟩
      · simp only [hin] at h
        obtain ⟨k, hk, hks, hkin, hrest⟩ := ih (by omega) h
        refine ⟨k, by omega, hks, hkin, ?_⟩
        intro j s1 h1 h2 hj
        by_cases hji : j = i
        · subst hji
          rw [hi] at hj
          cases hj
          simpa using hin
        · exact hrest j s1 h1 (by omega) hj

theorem spriteAtFrom_none (g : Game) (x y : Int) :
    ∀ n, n ≤ g.sprites.length → g.spriteAtFrom x y n = none →
      ∀ i s, i < n → g.sprites[i]? = some s → (g.mem s).In x y = false := by
  intro n
  induction n with
  | zero => intro _ _ i s hi; omega
  | succ k ih =>
    intro hn h i s hi his
    rw [Game.spriteAtFrom] at h
    cases hk : g.sprites[k]? with
    | none =>
      have := List.getElem?_eq_none_iff.mp hk
      omega
    | some t =>
      simp only [hk] at h
      by_cases hin : (g.mem t).In x y = true
      · simp [hin] at h
      · simp only [hin] at h
        by_cases hik : i = k
        · subst hik
          rw [hk] at his
          cases his
          simpa using hin
        · exact ih (by omega) h i s (by omega) his

theorem spriteAt_eq_none_iff (g : Game) (x y : Int) :
    g.spriteAt x y = none ↔ ∀ s ∈ g.sprites, (g.mem s).In x y = false := by
  constructor
  · intro h s hs
    obtain ⟨i, hi, his⟩ := List.getElem_of_mem hs
    exact spriteAtFrom_none g x y _ le_rfl h i s hi (by simp [List.getElem?_eq_getElem hi, his])
  · intro h
    cases hr : g.spriteAt x y with
    | none => rfl
    | some t =>
      obtain ⟨k, _, hkt, hkin, _⟩ := spriteAtFrom_some g x y t _ le_rfl hr
      have hmem : t ∈ g.sprites := List.getElem?_mem hkt
      rw [h t hmem] at hkin
      cases hkin

theorem spriteAt_mem (g : Game) (x y : Int) (s : SpritePtr) (h : g.spriteAt x y = some s) :
    s ∈ g.sprites := by
  obtain ⟨k, _, hkt, _, _⟩ := spriteAtFrom_some g x y s _ le_rfl h
  exact List.getElem?_mem hkt

/-- C1: `spriteAt(x, y)` returns the sprite at the highest index of `g.sprites` whose
bounding box contains `(x, y)` (every such sprite, and only such a sprite, is the
result), and it returns nil exactly when no sprite of `g.sprites` contains the point. -/
theorem spriteAt_highest_index (g : Game) (x y : Int) :
    (∀ s, g.spriteAt x y = some s ↔
      ∃ i : Nat, g.sprites[i]? = some s ∧ (g.mem s).In x y = true ∧
        ∀ (j : Nat) (s1 : SpritePtr), i < j → g.sprites[j]? = some s1 →
          (g.mem s1).In x y = false) ∧
    (g.spriteAt x y = none ↔ ∀ s ∈ g.sprites, (g.mem s).In x y = false) := by
  have hlen : ∀ j s1, g.sprites[j]? = some s1 → j < g.sprites.length := by
    intro j s1 hj
    by_contra hc
    rw [List.getElem?_eq_none_iff.mpr (by omega)] at hj
    cases hj
  constructor
  · intro s
    constructor
    · intro h
      obtain ⟨i, _, his, hin, hrest⟩ := spriteAtFrom_some g x y s _ le_rfl h
      exact ⟨i, his, hin, fun j s1 h1 hj => hrest j s1 h1 (hlen j s1 hj) hj⟩
    · rintro ⟨i, his, hin, hrest⟩
      cases hr : g.spriteAt x y with
      | none =>
        have := spriteAtFrom_none g x y _ le_rfl hr i s (hlen i s his) his
        rw [this] at hin
        cases hin
      | some t =>
        obtain ⟨k, _, hkt, hkin, hkrest⟩ := spriteAtFrom_some g x y t _ le_rfl hr
        rcases Nat.lt_trichotomy i k with hlt | heq | hgt
        · rw [hrest k t hlt hkt] at hkin
          cases hkin
        · subst heq
          rw [his] at hkt
          exact hkt.symm ▸ rfl
        · rw [hkrest i s hgt (hlen i s his) his] at hin
          cases hin
  · exact spriteAt_eq_none_iff g x y

/-- C1, the scenario: with `A` at index 0 and `B` at index 1 both covering `(5, 5)`,
`spriteAt(5, 5)` is `B`. -/
theorem spriteAt_highest_index_witness :
    overlapGame.sprites[1]? = some 1 ∧ (overlapGame.mem 0).In 5 5 = true ∧
      (overlapGame.mem 1).In 5 5 = true ∧ overlapGame.spriteAt 5 5 = some 1 :=
  ⟨rfl, by decide, by decide,
    ((spriteAt_highest_index overlapGame 5 5).1 1).2
      ⟨1, rfl, by decide, fun j s1 hj hs => by
        have : overlapGame.sprites[j]? = none :=
          List.getElem?_eq_none_iff.mpr (by simp [overlapGame]; omega)
        rw [this] at hs
        cases hs⟩⟩


/-! ## Applying a drag -/

theorem Stroke.Update_draggingObject (st : Stroke) (h : Host) :
    (st.Update h).draggingObject = st.draggingObject := by
  unfold Stroke.Update
  split
  · rfl
  · dsimp only
    split <;> rfl

theorem Stroke.Update_source (st : Stroke) (h : Host) :
    (st.Update h).source = st.source := by
  unfold Stroke.Update
  split
  · rfl
  · dsimp only
    split <;> rfl

theorem indexOfSprite_mem (s : SpritePtr) :
    ∀ (l : List SpritePtr) (k : Nat), s ∈ l →
      ∃ i : Nat, i < l.length ∧ l[i]? = some s ∧ (∀ j : Nat, j < i → l[j]? ≠ some s) ∧
        indexOfSprite s l k = ((k + i : Nat) : Int) := by
  intro l
  induction l with
  | nil => intro k h; cases h
  | cons a rest ih =>
    intro k h
    by_cases ha : a = s
    · refine ⟨0, by simp, by simp [ha], fun j hj => absurd hj (by omega), ?_⟩
      simp [indexOfSprite, ha]
    · have hrest : s ∈ rest := by
        rcases List.mem_cons.mp h with h1 | h1
        · exact absurd h1.symm ha
        · exact h1
      obtain ⟨i, hi, his, hmin, hidx⟩ := ih (k + 1) hrest
      refine ⟨i + 1, by simp; omega, by simpa using his, ?_, ?_⟩
      · intro j hj
        cases j with
        | zero => simpa using ha
        | succ j => simpa using hmin j (by omega)
      · simp only [indexOfSprite, ha, if_false]
        rw [hidx]
        congr 1
        omega

theorem indexOfSprite_not_mem (s : SpritePtr) :
    ∀ (l : List SpritePtr) (k : Nat), s ∉ l → indexOfSprite s l k = -1 := by
  intro l
  induction l with
  | nil => intro k _; rfl
  | cons a rest ih =>
    intro k h
    have ha : a ≠ s := fun e => h (by simp [e])
    have hrest : s ∉ rest := fun e => h (List.mem_cons_of_mem _ e)
    simp only [indexOfSprite, ha, if_false]
    exact ih (k + 1) hrest

theorem updateStroke_not_released (g : Game) (stroke : Stroke) (h : Host)
    (hr : (stroke.Update h).released = false) :
    g.updateStroke stroke h = some (g, stroke.Update h) := by
  simp [Game.updateStroke, Stroke.IsReleased, hr]

theorem updateStroke_nil_sprite (g : Game) (stroke : Stroke) (h : Host)
    (hd : stroke.draggingObject = .sprite none) :
    g.updateStroke stroke h = some (g, stroke.Update h) := by
  cases hr : (stroke.Update h).released with
  | false => exact updateStroke_not_released g stroke h hr
  | true =>
    simp [Game.updateStroke, Stroke.IsReleased, hr, Stroke.DraggingObject,
      Stroke.Update_draggingObject, hd, DragObj.assertSprite]

theorem updateStroke_drag (g : Game) (stroke : Stroke) (h : Host) (s : SpritePtr)
    (hr : (stroke.Update h).released = true)
    (hd : stroke.draggingObject = .sprite (some s)) (hs : s ∈ g.sprites) :
    ∃ i : Nat, i < g.sprites.length ∧ g.sprites[i]? = some s ∧
      (∀ j : Nat, j < i → g.sprites[j]? ≠ some s) ∧
      g.updateStroke stroke h =
        some (g.dragged s (stroke.Update h).PositionDiff i,
              (stroke.Update h).SetDraggingObject .nilIface) := by
  obtain ⟨i, hi, his, hmin, hidx⟩ := indexOfSprite_mem s g.sprites 0 hs
  refine ⟨i, hi, his, hmin, ?_⟩
  have h1 : sliceTo g.sprites (i : Int) = some (g.sprites.take i) := by
    simp [sliceTo]; omega
  have h2 : sliceFrom g.sprites ((i : Int) + 1) = some (g.sprites.drop (i + 1)) := by
    have : (0 : Int) ≤ (i : Int) + 1 ∧ (i : Int) + 1 ≤ (g.sprites.length : Int) := by omega
    simp only [sliceFrom, this, and_self, if_true]
    congr 2
  simp only [Nat.zero_add] at hidx
  simp only [Game.updateStroke, Stroke.IsReleased, hr, Stroke.DraggingObject,
    Stroke.Update_draggingObject, hd, DragObj.assertSprite, hidx, h1, h2, Game.dragged,
    List.eraseIdx_eq_take_drop_succ]
  simp


/-- C2: when a stroke whose attached sprite `s` is in `g.sprites` is released after its
`Update`, `updateStroke` returns and the position of `s` afterwards is its position
before plus the stroke's `PositionDiff` (current minus initial), componentwise. -/
theorem updateStroke_moves_sprite (g : Game) (stroke : Stroke) (h : Host) (s : SpritePtr)
    (hd : stroke.DraggingObject = .sprite (some s)) (hs : s ∈ g.sprites)
    (hr : (stroke.Update h).IsReleased = true) :
    ∃ g1 st1, g.updateStroke stroke h = some (g1, st1) ∧
      (g1.mem s).x = (g.mem s).x + (stroke.Update h).PositionDiff.1 ∧
      (g1.mem s).y = (g.mem s).y + (stroke.Update h).PositionDiff.2 ∧
      (stroke.Update h).PositionDiff =
        ((stroke.Update h).currentX - stroke.initX, (stroke.Update h).currentY - stroke.initY) := by
  obtain ⟨i, _, _, _, hu⟩ := updateStroke_drag g stroke h s hr hd hs
  refine ⟨_, _, hu, ?_, ?_, ?_⟩
  · simp [Game.dragged, Sprite.MoveBy]
  · simp [Game.dragged, Sprite.MoveBy]
  · have h1 : (stroke.Update h).initX = stroke.initX := by
      unfold Stroke.Update; split
      · rfl
      · dsimp only; split <;> rfl
    have h2 : (stroke.Update h).initY = stroke.initY := by
      unfold Stroke.Update; split
      · rfl
      · dsimp only; split <;> rfl
    simp [Stroke.PositionDiff, h1, h2]

/-- C2, the scenario: a sprite at `(10, 10)`, a press at `(15, 15)` and a release at
`(15, 45)` give the position `(10, 40)`. -/
theorem updateStroke_moves_sprite_witness :
    dragStroke.DraggingObject = .sprite (some 0) ∧ 0 ∈ dragGame.sprites ∧
      (dragStroke.Update dragRelease).IsReleased = true ∧
      ∃ g1 st1, dragGame.updateStroke dragStroke dragRelease = some (g1, st1) ∧
        (g1.mem 0).x = 10 ∧ (g1.mem 0).y = 40 :=
  ⟨by decide, by decide, by decide,
    match updateStroke_moves_sprite dragGame dragStroke dragRelease 0
        (by decide) (by decide) (by decide) with
    | ⟨g1, st1, hu, hx, hy, _⟩ => ⟨g1, st1, hu, hx.trans (by decide), hy.trans (by decide)⟩⟩

/-- C3: for a duplicate-free `g.sprites` and a stroke, released after its `Update`,
whose attached sprite `s` sits at index `i`, `updateStroke` returns and `g.sprites`
afterwards is the old sequence with the element at index `i` removed and `s` appended:
`s` is the last element and the length is unchanged. -/
theorem updateStroke_moves_to_front (g : Game) (stroke : Stroke) (h : Host) (s : SpritePtr)
    (i : Nat) (hnd : g.sprites.Nodup) (hi : g.sprites[i]? = some s)
    (hd : stroke.DraggingObject = .sprite (some s))
    (hr : (stroke.Update h).IsReleased = true) :
    ∃ g1 st1, g.updateStroke stroke h = some (g1, st1) ∧
      g1.sprites = g.sprites.eraseIdx i ++ [s] ∧
      g1.sprites.getLast? = some s ∧
      g1.sprites.length = g.sprites.length := by
  have hs : s ∈ g.sprites := List.getElem?_mem hi
  obtain ⟨k, hk, hks, _, hu⟩ := updateStroke_drag g stroke h s hr hd hs
  have hil : i < g.sprites.length := by
    by_contra hc
    rw [List.getElem?_eq_none_iff.mpr (by omega)] at hi
    cases hi
  have hki : k = i := by
    rcases Nat.lt_trichotomy k i with hlt | heq | hgt
    · exact absurd (hks.trans hi.symm)
        (List.nodup_iff_getElem?_ne_getElem?.mp hnd k i hlt hil)
    · exact heq
    · exact absurd (hi.trans hks.symm)
        (List.nodup_iff_getElem?_ne_getElem?.mp hnd i k hgt hk)
  subst hki
  refine ⟨_, _, hu, rfl, ?_, ?_⟩
  · simp [Game.dragged]
  · simp only [Game.dragged, List.length_append, List.length_eraseIdx, hk, if_true,
      List.length_singleton]
    omega

/-- C3, an example: dragging the middle sprite of `[4, 5, 6]` gives `[4, 6, 5]`. -/
theorem updateStroke_moves_to_front_witness :
    threeGame.sprites.Nodup ∧ threeGame.sprites[1]? = some 5 ∧
      threeStroke.DraggingObject = .sprite (some 5) ∧
      (threeStroke.Update dragRelease).IsReleased = true ∧
      ∃ g1 st1, threeGame.updateStroke threeStroke dragRelease = some (g1, st1) ∧
        g1.sprites = [4, 6, 5] :=
  ⟨by decide, by decide, by decide, by decide,
    match updateStroke_moves_to_front threeGame threeStroke dragRelease 5 1
        (by decide) (by decide) (by decide) (by decide) with
    | ⟨g1, st1, hu, hsp, _, _⟩ => ⟨g1, st1, hu, hsp.trans (by decide)⟩⟩

/-! ## Creating strokes -/

theorem spriteAtFrom_congr (g1 g2 : Game) (hs : g1.sprites = g2.sprites)
    (hm : g1.mem = g2.mem) (x y : Int) :
    ∀ n, g1.spriteAtFrom x y n = g2.spriteAtFrom x y n := by
  intro n
  induction n with
  | zero => rfl
  | succ i ih => simp only [Game.spriteAtFrom, hs, hm, ih]

theorem createStroke_congr (g1 g2 : Game) (hs : g1.sprites = g2.sprites)
    (hm : g1.mem = g2.mem) (src : StrokeSource) (h : Host) :
    g1.createStroke src h = g2.createStroke src h := by
  simp only [Game.createStroke, Game.spriteAt, hs, spriteAtFrom_congr g1 g2 hs hm]

/-- The strokes `Update` creates in a frame, in the order of their creation. -/
theorem foldl_addStroke (h : Host) :
    ∀ (ids : List TouchID) (g0 : Game),
      ids.foldl (fun g id => g.addStroke (.TouchStrokeSource id) h) g0 =
        { g0 with strokes := g0.strokes ++
            ids.map (fun id => g0.createStroke (.TouchStrokeSource id) h) } := by
  intro ids
  induction ids with
  | nil => intro g0; simp
  | cons id rest ih =>
    intro g0
    rw [List.foldl_cons, ih]
    have hc : ∀ id1, (g0.addStroke (.TouchStrokeSource id) h).createStroke
        (.TouchStrokeSource id1) h = g0.createStroke (.TouchStrokeSource id1) h :=
      fun id1 => createStroke_congr (g0.addStroke (.TouchStrokeSource id) h) g0 rfl rfl _ h
    simp only [List.map_cons, List.append_assoc, List.singleton_append, hc]
    simp [Game.addStroke]

theorem press_eq (g : Game) (h : Host) :
    g.press h = { g with strokes := g.strokes ++
      ((if h.IsMouseButtonJustPressed then [g.createStroke .MouseStrokeSource h] else []) ++
        g.touchIDs.map (fun id => g.createStroke (.TouchStrokeSource id) h)) } := by
  unfold Game.press
  dsimp only
  rw [foldl_addStroke]
  by_cases hp : h.IsMouseButtonJustPressed = true
  · have hc : ∀ id1, (g.addStroke .MouseStrokeSource h).createStroke
        (.TouchStrokeSource id1) h = g.createStroke (.TouchStrokeSource id1) h :=
      fun id1 => createStroke_congr (g.addStroke .MouseStrokeSource h) g rfl rfl _ h
    simp only [hp, if_true, hc, List.append_assoc]
    simp [Game.addStroke]
  · simp [hp]

theorem press_sprites (g : Game) (h : Host) : (g.press h).sprites = g.sprites := by
  rw [press_eq]

theorem press_mem (g : Game) (h : Host) : (g.press h).mem = g.mem := by
  rw [press_eq]

theorem press_touchIDs (g : Game) (h : Host) : (g.press h).touchIDs = g.touchIDs := by
  rw [press_eq]

theorem createStroke_released (g : Game) (src : StrokeSource) (h : Host) :
    (g.createStroke src h).released = false := rfl

theorem createStroke_source (g : Game) (src : StrokeSource) (h : Host) :
    (g.createStroke src h).source = src := rfl

theorem createStroke_draggingObject (g : Game) (src : StrokeSource) (h : Host) :
    (g.createStroke src h).draggingObject =
      .sprite (g.spriteAt (src.Position h).1 (src.Position h).2) := rfl

/-- Every stroke a frame creates is a `createStroke` of one of the sources. -/
theorem mem_press_new (g : Game) (h : Host) (st : Stroke)
    (hst : st ∈ (g.press h).strokes.drop g.strokes.length) :
    ∃ src, st = g.createStroke src h := by
  rw [press_eq] at hst
  simp only [List.drop_left, List.mem_append, List.mem_map] at hst
  rcases hst with h1 | ⟨id, _, h2⟩
  · by_cases hp : h.IsMouseButtonJustPressed = true
    · simp only [hp, if_true, List.mem_singleton] at h1
      exact ⟨_, h1⟩
    · simp [hp] at h1
  · exact ⟨_, h2.symm⟩

theorem foldl_Update_draggingObject (later : List Host) :
    ∀ st : Stroke, (later.foldl Stroke.Update st).draggingObject = st.draggingObject := by
  induction later with
  | nil => intro st; rfl
  | cons h rest ih => intro st; rw [List.foldl_cons, ih, Stroke.Update_draggingObject]

/-- C4: a stroke that `Update` creates at a press point covered by no sprite has the nil
sprite as its dragging object, and any later `updateStroke` on it (after any number of
frames, in any game state, released or not) returns and leaves the game, hence
`g.sprites` and every sprite position, unchanged. -/
theorem press_outside_sprites (g : Game) (h : Host) (st : Stroke)
    (hst : st ∈ (g.press h).strokes.drop g.strokes.length)
    (hno : ∀ s ∈ g.sprites, (g.mem s).In st.initX st.initY = false) :
    g.spriteAt st.initX st.initY = none ∧
    st.DraggingObject = .sprite none ∧
    ∀ (later : List Host) (g2 : Game) (h2 : Host),
      g2.updateStroke (later.foldl Stroke.Update st) h2 =
        some (g2, (later.foldl Stroke.Update st).Update h2) := by
  obtain ⟨src, rfl⟩ := mem_press_new g h st hst
  have hnone : g.spriteAt (src.Position h).1 (src.Position h).2 = none :=
    (spriteAt_eq_none_iff g _ _).mpr hno
  refine ⟨hnone, ?_, ?_⟩
  · simp only [Stroke.DraggingObject, createStroke_draggingObject, hnone]
  · intro later g2 h2
    apply updateStroke_nil_sprite
    rw [foldl_Update_draggingObject, createStroke_draggingObject, hnone]

/-- C4, the scenario: the press at `(1000, 1000)`, covered by no sprite, creates a stroke
with no dragging object, and its release leaves the game as it was. -/
theorem press_outside_sprites_witness :
    farStroke ∈ (dragGame.press farPress).strokes.drop dragGame.strokes.length ∧
      (farStroke.initX, farStroke.initY) = (1000, 1000) ∧
      (∀ s ∈ dragGame.sprites, (dragGame.mem s).In farStroke.initX farStroke.initY = false) ∧
      farStroke.DraggingObject = .sprite none ∧
      (farStroke.Update farRelease).IsReleased = true ∧
      dragGame.updateStroke farStroke farRelease = some (dragGame, farStroke.Update farRelease) :=
  ⟨by decide, by decide, by decide,
    (press_outside_sprites dragGame farPress farStroke (by decide) (by decide)).2.1,
    by decide,
    (press_outside_sprites dragGame farPress farStroke (by decide) (by decide)).2.2
      [] dragGame farRelease⟩

/-! ## The frame loop over the strokes -/

/-- The three ways in which `updateStroke` returns. -/
theorem updateStroke_cases (g : Game) (s : Stroke) (h : Host) (g1 : Game) (s1 : Stroke)
    (hu : g.updateStroke s h = some (g1, s1)) :
    ((s.Update h).released = false ∧ g1 = g ∧ s1 = s.Update h) ∨
    ((s.Update h).released = true ∧ s.draggingObject = .sprite none ∧ g1 = g ∧
      s1 = s.Update h) ∨
    ((s.Update h).released = true ∧ ∃ (p : SpritePtr) (i : Nat),
      s.draggingObject = .sprite (some p) ∧ i < g.sprites.length ∧ g.sprites[i]? = some p ∧
      g1 = g.dragged p (s.Update h).PositionDiff i ∧
      s1 = (s.Update h).SetDraggingObject .nilIface) := by
  cases hr : (s.Update h).released with
  | false =>
    rw [updateStroke_not_released g s h hr] at hu
    cases hu
    exact Or.inl ⟨rfl, rfl, rfl⟩
  | true =>
    cases hd : s.draggingObject with
    | nilIface =>
      simp [Game.updateStroke, Stroke.IsReleased, hr, Stroke.DraggingObject,
        Stroke.Update_draggingObject, hd, DragObj.assertSprite] at hu
    | sprite q =>
      cases q with
      | none =>
        rw [updateStroke_nil_sprite g s h hd] at hu
        cases hu
        exact Or.inr (Or.inl ⟨rfl, rfl, rfl, rfl⟩)
      | some p =>
        by_cases hp : p ∈ g.sprites
        · obtain ⟨i, hi, his, _, hu1⟩ := updateStroke_drag g s h p hr hd hp
          rw [hu1] at hu
          cases hu
          exact Or.inr (Or.inr ⟨rfl, p, i, rfl, hi, his, rfl, rfl⟩)
        · have hidx := indexOfSprite_not_mem p g.sprites 0 hp
          simp [Game.updateStroke, Stroke.IsReleased, hr, Stroke.DraggingObject,
            Stroke.Update_draggingObject, hd, DragObj.assertSprite, hidx, sliceTo] at hu

theorem updateStroke_released (g : Game) (s : Stroke) (h : Host) (g1 : Game) (s1 : Stroke)
    (hu : g.updateStroke s h = some (g1, s1)) :
    s1.released = (s.Update h).released ∧ (s1.released = false → s1 = s.Update h) := by
  rcases updateStroke_cases g s h g1 s1 hu with ⟨_, _, h3⟩ | ⟨_, _, _, h3⟩ |
      ⟨_, p, i, _, _, _, _, h3⟩
  · subst h3; exact ⟨rfl, fun _ => rfl⟩
  · subst h3; exact ⟨rfl, fun _ => rfl⟩
  · subst h3
    refine ⟨rfl, fun hc => ?_⟩
    simp_all [Stroke.SetDraggingObject]

theorem rangeStrokes_kept (h : Host) :
    ∀ (visit : List Stroke) (g g1 : Game) (kept : List Stroke),
      g.rangeStrokes h visit = some (g1, kept) →
      kept = (visit.map (fun st => st.Update h)).filter (fun st => !st.IsReleased) := by
  intro visit
  induction visit with
  | nil =>
    intro g g1 kept hu
    simp [Game.rangeStrokes] at hu
    simp [hu.2]
  | cons s rest ih =>
    intro g g1 kept hu
    rw [Game.rangeStrokes] at hu
    cases h1 : g.updateStroke s h with
    | none => simp [h1] at hu
    | some r1 =>
      obtain ⟨ga, sa⟩ := r1
      simp only [h1] at hu
      cases h2 : ga.rangeStrokes h rest with
      | none => simp [h2] at hu
      | some r2 =>
        obtain ⟨gb, keptb⟩ := r2
        simp only [h2, Option.some.injEq, Prod.mk.injEq] at hu
        obtain ⟨_, hk⟩ := hu
        have ihk := ih ga gb keptb h2
        obtain ⟨hrel, hsame⟩ := updateStroke_released g s h ga sa h1
        cases hsr : sa.released with
        | true =>
          have : (s.Update h).released = true := by rw [← hrel, hsr]
          simp [Stroke.IsReleased, hsr, this] at hk ⊢
          rw [← hk, ihk]
          simp [Stroke.IsReleased]
        | false =>
          have hsa := hsame hsr
          have : (s.Update h).released = false := by rw [← hrel, hsr]
          simp [Stroke.IsReleased, hsr, this] at hk ⊢
          rw [← hk, ihk, hsa]
          simp [Stroke.IsReleased]

/-- C5: when `Update` returns, the active set holds no released stroke: it holds exactly
the strokes of the frame (those created in it included), each after its `Stroke.Update`,
that are not released; every stroke observed released is gone and every other stays. -/
theorem Update_removes_released (g : Game) (h : Host) (visit : List Stroke) (g1 : Game)
    (err : Option GoError) (hv : visit.Perm (g.press h).strokes)
    (hu : g.Update h visit = some (g1, err)) :
    (∀ st ∈ g1.strokes, st.IsReleased = false) ∧
    g1.strokes = (visit.map (fun st => st.Update h)).filter (fun st => !st.IsReleased) ∧
    g1.strokes.Perm
      (((g.press h).strokes.map (fun st => st.Update h)).filter (fun st => !st.IsReleased)) ∧
    (∀ st ∈ (g.press h).strokes, (st.Update h).IsReleased = true → st.Update h ∉ g1.strokes) ∧
    (∀ st ∈ (g.press h).strokes, (st.Update h).IsReleased = false → st.Update h ∈ g1.strokes) := by
  unfold Game.Update at hu
  dsimp only at hu
  cases h1 : (g.press h).rangeStrokes h visit with
  | none => simp [h1] at hu
  | some r =>
    obtain ⟨ga, kept⟩ := r
    simp only [h1, Option.some.injEq, Prod.mk.injEq] at hu
    obtain ⟨hg, _⟩ := hu
    have hk := rangeStrokes_kept h visit _ ga kept h1
    have hs : g1.strokes = kept := by rw [← hg]
    rw [hs, hk]
    have hall : ∀ st ∈ (visit.map (fun st => st.Update h)).filter (fun st => !st.IsReleased),
        st.IsReleased = false := by
      intro st hst
      simpa using (List.mem_filter.mp hst).2
    refine ⟨hall, rfl, (hv.map _).filter _, ?_, ?_⟩
    · intro st _ hrel hmem
      rw [hall _ hmem] at hrel
      cases hrel
    · intro st hst hrel
      refine List.mem_filter.mpr ⟨List.mem_map.mpr ⟨st, hv.symm.subset hst, rfl⟩, ?_⟩
      simp [hrel]

/-- C5, an example: of the mouse stroke, released in the frame, and the touch stroke,
still down, only the touch stroke is left after `Update`. -/
theorem Update_removes_released_witness :
    twoStrokesGame.strokes.Perm (twoStrokesGame.press mouseUpTouchDown).strokes ∧
      twoStrokesGame.Update mouseUpTouchDown twoStrokesGame.strokes =
        some ({ twoStrokesGame with strokes := [touchStroke.Update mouseUpTouchDown] }, none) ∧
      (farStroke.Update mouseUpTouchDown).IsReleased = true ∧
      (touchStroke.Update mouseUpTouchDown).IsReleased = false ∧
      ∀ st ∈ [touchStroke.Update mouseUpTouchDown], st.IsReleased = false :=
  ⟨List.Perm.refl _, rfl, by decide, by decide,
    (Update_removes_released twoStrokesGame mouseUpTouchDown twoStrokesGame.strokes
      { twoStrokesGame with strokes := [touchStroke.Update mouseUpTouchDown] } none
      (List.Perm.refl _) rfl).1⟩

/-! ## The sprite sequence is only reordered -/

theorem eraseIdx_append_perm (p : SpritePtr) :
    ∀ (l : List SpritePtr) (i : Nat), l[i]? = some p → (l.eraseIdx i ++ [p]).Perm l := by
  intro l
  induction l with
  | nil => intro i h; simp at h
  | cons a rest ih =>
    intro i h
    cases i with
    | zero =>
      simp only [List.getElem?_cons_zero, Option.some.injEq] at h
      subst h
      simp
    | succ i =>
      simp only [List.getElem?_cons_succ] at h
      simpa using ih i h

theorem updateStroke_sprites_perm (g : Game) (s : Stroke) (h : Host) (g1 : Game) (s1 : Stroke)
    (hu : g.updateStroke s h = some (g1, s1)) :
    g1.sprites.Perm g.sprites ∧ g1.touchIDs = g.touchIDs := by
  rcases updateStroke_cases g s h g1 s1 hu with ⟨_, h2, _⟩ | ⟨_, _, h2, _⟩ |
      ⟨_, p, i, _, _, his, h2, _⟩
  · subst h2; exact ⟨List.Perm.refl _, rfl⟩
  · subst h2; exact ⟨List.Perm.refl _, rfl⟩
  · subst h2
    exact ⟨eraseIdx_append_perm p g.sprites i his, rfl⟩

theorem rangeStrokes_sprites_perm (h : Host) :
    ∀ (visit : List Stroke) (g g1 : Game) (kept : List Stroke),
      g.rangeStrokes h visit = some (g1, kept) →
      g1.sprites.Perm g.sprites ∧ g1.touchIDs = g.touchIDs := by
  intro visit
  induction visit with
  | nil =>
    intro g g1 kept hu
    simp only [Game.rangeStrokes, Option.some.injEq, Prod.mk.injEq] at hu
    rw [← hu.1]
    exact ⟨List.Perm.refl _, rfl⟩
  | cons s rest ih =>
    intro g g1 kept hu
    rw [Game.rangeStrokes] at hu
    cases h1 : g.updateStroke s h with
    | none => simp [h1] at hu
    | some r1 =>
      obtain ⟨ga, sa⟩ := r1
      simp only [h1] at hu
      cases h2 : ga.rangeStrokes h rest with
      | none => simp [h2] at hu
      | some r2 =>
        obtain ⟨gb, keptb⟩ := r2
        simp only [h2, Option.some.injEq, Prod.mk.injEq] at hu
        obtain ⟨hg, _⟩ := hu
        subst hg
        obtain ⟨hp1, ht1⟩ := updateStroke_sprites_perm g s h ga sa h1
        obtain ⟨hp2, ht2⟩ := ih ga gb keptb h2
        exact ⟨hp2.trans hp1, ht2.trans ht1⟩

theorem Update_sprites_perm (g : Game) (h : Host) (visit : List Stroke) (g1 : Game)
    (err : Option GoError) (hu : g.Update h visit = some (g1, err)) :
    g1.sprites.Perm g.sprites ∧ g1.touchIDs = g.touchIDs ∧ err = none ∧
      g1.strokes = (visit.map (fun st => st.Update h)).filter (fun st => !st.IsReleased) := by
  unfold Game.Update at hu
  dsimp only at hu
  cases h1 : (g.press h).rangeStrokes h visit with
  | none => simp [h1] at hu
  | some r =>
    obtain ⟨ga, kept⟩ := r
    simp only [h1, Option.some.injEq, Prod.mk.injEq] at hu
    obtain ⟨hg, he⟩ := hu
    obtain ⟨hp, ht⟩ := rangeStrokes_sprites_perm h visit _ ga kept h1
    have hk := rangeStrokes_kept h visit _ ga kept h1
    rw [press_sprites] at hp
    rw [press_touchIDs] at ht
    subst hg
    exact ⟨hp, ht, he.symm, hk⟩

theorem newSprites_range (screenWidth screenHeight : Int) (rand : Nat → Nat) (img : Image) :
    ∀ (n : Nat) (b b1 : Building),
      newSprites screenWidth screenHeight rand img n b = some b1 →
      b.sprites = List.range b.next → b1.sprites = List.range b1.next := by
  intro n
  induction n with
  | zero =>
    intro b b1 hb hr
    simp only [newSprites, Option.some.injEq] at hb
    rw [← hb]; exact hr
  | succ n ih =>
    intro b b1 hb hr
    rw [newSprites] at hb
    cases hx : Intn (rand b.draws) (screenWidth - img.w) with
    | none => simp [hx] at hb
    | some x =>
      cases hy : Intn (rand (b.draws + 1)) (screenHeight - img.h) with
      | none => simp [hx, hy] at hb
      | some y =>
        simp only [hx, hy] at hb
        refine ih _ b1 hb ?_
        simp [hr, List.range_succ]

theorem newSpritesAll_range (screenWidth screenHeight : Int) (rand : Nat → Nat) :
    ∀ (images : List Image) (b b1 : Building),
      newSpritesAll screenWidth screenHeight rand images b = some b1 →
      b.sprites = List.range b.next → b1.sprites = List.range b1.next := by
  intro images
  induction images with
  | nil =>
    intro b b1 hb hr
    simp only [newSpritesAll, Option.some.injEq] at hb
    rw [← hb]; exact hr
  | cons img rest ih =>
    intro b b1 hb hr
    rw [newSpritesAll] at hb
    cases h3 : newSprites screenWidth screenHeight rand img 3 b with
    | none => simp [h3] at hb
    | some b2 =>
      simp only [h3] at hb
      exact ih b2 b1 hb (newSprites_range screenWidth screenHeight rand img 3 b b2 h3 hr)

theorem NewGame_init (screenWidth screenHeight : Int) (images : List Image) (rand : Nat → Nat)
    (g : Game) (hg : NewGame screenWidth screenHeight images rand = some g) :
    g.sprites.Nodup ∧ g.strokes = [] ∧ g.touchIDs = [] := by
  unfold NewGame at hg
  cases hb : newSpritesAll screenWidth screenHeight rand images
      { sprites := [], mem := fun _ => { image := { w := 0, h := 0 }, x := 0, y := 0 },
        next := 0, draws := 0 } with
  | none => simp [hb] at hg
  | some b =>
    simp only [hb, Option.some.injEq] at hg
    subst hg
    have := newSpritesAll_range screenWidth screenHeight rand images _ b hb rfl
    exact ⟨by simp only [this]; exact List.nodup_range _, rfl, rfl⟩

/-- C6: in every state reachable from `NewGame` by `Update` calls, `g.sprites` is a
permutation of the sequence `NewGame` created and has no duplicates: no sprite is
added or dropped, a drag only reorders the sequence. -/
theorem sprites_perm_of_reachable (screenWidth screenHeight : Int) (images : List Image)
    (rand : Nat → Nat) (g0 g : Game) (hf : HostFrame)
    (h0 : NewGame screenWidth screenHeight images rand = some g0)
    (hr : Reachable screenWidth screenHeight images rand g hf) :
    g.sprites.Perm g0.sprites ∧ g.sprites.Nodup ∧ g.sprites.length = g0.sprites.length ∧
      ∀ s, s ∈ g.sprites ↔ s ∈ g0.sprites := by
  have hperm : g.sprites.Perm g0.sprites := by
    induction hr with
    | init g h1 hn =>
      rw [h0] at hn
      cases hn
      exact List.Perm.refl _
    | update g prev cur visit g1 err _ _ hu ih =>
      exact (Update_sprites_perm g _ visit g1 err hu).1.trans ih
  exact ⟨hperm, (hperm.nodup_iff).mpr (NewGame_init _ _ _ _ g0 h0).1, hperm.length_eq,
    fun s => hperm.mem_iff⟩

theorem demo_NewGame : NewGame 640 480 demoImages demoRand = some demoGame0 := rfl

theorem demo_reachable1 :
    Reachable 640 480 demoImages demoRand demoGame1 (frameAt true 5 15) :=
  Reachable.update demoGame0 (frameAt false 0 0) (frameAt true 5 15) _ demoGame1 none
    (Reachable.init demoGame0 (frameAt false 0 0) demo_NewGame) (List.Perm.refl _) rfl

theorem demo_reachable2 :
    Reachable 640 480 demoImages demoRand demoGame2 (frameAt false 105 115) :=
  Reachable.update demoGame1 (frameAt true 5 15) (frameAt false 105 115) _ demoGame2 none
    demo_reachable1 (List.Perm.refl _) rfl

/-- C6, an example: dragging the back sprite of the three that `NewGame` creates turns
the sequence `[0, 1, 2]` into `[1, 2, 0]`, a permutation without duplicates. -/
theorem sprites_perm_of_reachable_witness :
    NewGame 640 480 demoImages demoRand = some demoGame0 ∧
      Reachable 640 480 demoImages demoRand demoGame2 (frameAt false 105 115) ∧
      demoGame0.sprites = [0, 1, 2] ∧ demoGame2.sprites = [1, 2, 0] ∧
      demoGame2.sprites.Perm demoGame0.sprites ∧ demoGame2.sprites.Nodup :=
  ⟨demo_NewGame, demo_reachable2, by decide, by decide,
    (sprites_perm_of_reachable 640 480 demoImages demoRand demoGame0 demoGame2 _
      demo_NewGame demo_reachable2).1,
    (sprites_perm_of_reachable 640 480 demoImages demoRand demoGame0 demoGame2 _
      demo_NewGame demo_reachable2).2.1⟩

/-! ## Update and Draw do not panic -/

theorem Attached.of_perm (g g1 : Game) (st : Stroke) (hp : g1.sprites.Perm g.sprites)
    (ha : Attached g st) : Attached g1 st := by
  obtain ⟨p, hd, hm⟩ := ha
  exact ⟨p, hd, fun s hs => hp.symm.subset (hm s hs)⟩

theorem updateStroke_total (g : Game) (st : Stroke) (h : Host) (ha : Attached g st) :
    ∃ g1 s1, g.updateStroke st h = some (g1, s1) := by
  obtain ⟨p, hd, hm⟩ := ha
  cases hr : (st.Update h).released with
  | false => exact ⟨_, _, updateStroke_not_released g st h hr⟩
  | true =>
    cases p with
    | none => exact ⟨_, _, updateStroke_nil_sprite g st h hd⟩
    | some s =>
      obtain ⟨i, _, _, _, hu⟩ := updateStroke_drag g st h s hr hd (hm s rfl)
      exact ⟨_, _, hu⟩

theorem rangeStrokes_total (h : Host) :
    ∀ (visit : List Stroke) (g : Game), (∀ st ∈ visit, Attached g st) →
      ∃ g1 kept, g.rangeStrokes h visit = some (g1, kept) ∧ ∀ st ∈ kept, Attached g1 st := by
  intro visit
  induction visit with
  | nil => intro g _; exact ⟨g, [], rfl, fun st hst => by cases hst⟩
  | cons s rest ih =>
    intro g ha
    have has : Attached g s := ha s (List.mem_cons_self _ _)
    obtain ⟨ga, sa, h1⟩ := updateStroke_total g s h has
    obtain ⟨hpa, _⟩ := updateStroke_sprites_perm g s h ga sa h1
    have har : ∀ st ∈ rest, Attached ga st := fun st hst =>
      Attached.of_perm g ga st hpa (ha st (List.mem_cons_of_mem _ hst))
    obtain ⟨gb, keptb, h2, hk⟩ := ih ga har
    obtain ⟨hpb, _⟩ := rangeStrokes_sprites_perm h rest ga gb keptb h2
    refine ⟨gb, if sa.IsReleased then keptb else sa :: keptb, ?_, ?_⟩
    · rw [Game.rangeStrokes]
      simp only [h1, h2]
    · intro st hst
      cases hsr : sa.released with
      | true =>
        simp only [Stroke.IsReleased, hsr, if_true] at hst
        exact hk st hst
      | false =>
        simp only [Stroke.IsReleased, hsr, Bool.false_eq_true, if_false, List.mem_cons] at hst
        rcases hst with rfl | hst
        · have hsa := (updateStroke_released g s h ga st h1).2 hsr
          obtain ⟨p, hd, hm⟩ := has
          refine Attached.of_perm g gb st (hpb.trans hpa) ⟨p, ?_, hm⟩
          rw [hsa]
          simpa [Stroke.DraggingObject, Stroke.Update_draggingObject] using hd
        · exact hk st hst

theorem press_attached (g : Game) (h : Host) (ha : ∀ st ∈ g.strokes, Attached g st) :
    ∀ st ∈ (g.press h).strokes, Attached (g.press h) st := by
  intro st hst
  have hp : (g.press h).sprites.Perm g.sprites := by rw [press_sprites]
  apply Attached.of_perm g (g.press h) st hp
  by_cases hold : st ∈ g.strokes
  · exact ha st hold
  · have hnew : st ∈ (g.press h).strokes.drop g.strokes.length := by
      rw [press_eq] at hst ⊢
      simp only [List.mem_append] at hst
      rcases hst with h1 | h1
      · exact absurd h1 hold
      · simpa using h1
    obtain ⟨src, rfl⟩ := mem_press_new g h st hnew
    exact ⟨_, createStroke_draggingObject g src h, fun s hs => spriteAt_mem g _ _ s hs⟩

theorem Update_total (g : Game) (h : Host) (visit : List Stroke)
    (ha : ∀ st ∈ g.strokes, Attached g st) (hv : visit.Perm (g.press h).strokes) :
    ∃ g1, g.Update h visit = some (g1, none) ∧ ∀ st ∈ g1.strokes, Attached g1 st := by
  have hvis : ∀ st ∈ visit, Attached (g.press h) st := fun st hst =>
    press_attached g h ha st (hv.subset hst)
  obtain ⟨g1, kept, h1, hk⟩ := rangeStrokes_total h visit (g.press h) hvis
  refine ⟨{ g1 with strokes := kept }, ?_, ?_⟩
  · unfold Game.Update
    simp only [h1]
  · intro st hst
    obtain ⟨p, hd, hm⟩ := hk st hst
    exact ⟨p, hd, hm⟩

theorem reachable_attached (screenWidth screenHeight : Int) (images : List Image)
    (rand : Nat → Nat) (g : Game) (hf : HostFrame)
    (hr : Reachable screenWidth screenHeight images rand g hf) :
    ∀ st ∈ g.strokes, Attached g st := by
  induction hr with
  | init g h1 hn =>
    intro st hst
    rw [(NewGame_init _ _ _ _ g hn).2.1] at hst
    cases hst
  | update g prev cur visit g1 err _ hv hu ih =>
    obtain ⟨g2, h2, ha⟩ := Update_total g _ visit ih hv
    rw [hu] at h2
    cases h2
    exact ha

theorem collectDragging_typed :
    ∀ (visit : List Stroke) (acc : List SpritePtr),
      (∀ st ∈ visit, ∃ p, st.DraggingObject = .sprite p) →
      ∃ ds, collectDragging acc visit = some ds ∧
        ∀ s, s ∈ ds ↔ s ∈ acc ∨ ∃ st ∈ visit, st.DraggingObject = .sprite (some s) := by
  intro visit
  induction visit with
  | nil => intro acc _; exact ⟨acc, rfl, fun s => by simp⟩
  | cons st rest ih =>
    intro acc ht
    obtain ⟨p, hp⟩ := ht st (List.mem_cons_self _ _)
    have hrest : ∀ st ∈ rest, ∃ p, st.DraggingObject = .sprite p := fun s1 hs1 =>
      ht s1 (List.mem_cons_of_mem _ hs1)
    cases p with
    | none =>
      obtain ⟨ds, hds, hmem⟩ := ih acc hrest
      refine ⟨ds, by simp only [collectDragging, hp, DragObj.assertSprite, hds], ?_⟩
      intro s
      rw [hmem s]
      simp [hp]
    | some q =>
      obtain ⟨ds, hds, hmem⟩ := ih (q :: acc) hrest
      refine ⟨ds, by simp only [collectDragging, hp, DragObj.assertSprite, hds], ?_⟩
      intro s
      rw [hmem s]
      simp only [List.mem_cons, hp, DragObj.sprite.injEq, Option.some.injEq, exists_eq_or_imp]
      constructor
      · rintro ((h1 | h1) | h1)
        · exact Or.inr (Or.inl h1.symm)
        · exact Or.inl h1
        · exact Or.inr (Or.inr h1)
      · rintro (h1 | h1 | h1)
        · exact Or.inl (Or.inr h1)
        · exact Or.inl (Or.inl h1.symm)
        · exact Or.inr h1

theorem drawResting_eq (ds : List SpritePtr) :
    ∀ (sprites : List SpritePtr) (screen : List DrawCall),
      drawResting ds screen sprites =
        screen ++ (sprites.filter (fun s => decide (s ∉ ds))).map restingCall := by
  intro sprites
  induction sprites with
  | nil => intro screen; simp [drawResting]
  | cons s rest ih =>
    intro screen
    by_cases hs : s ∈ ds
    · simp [drawResting, hs, ih]
    · simp [drawResting, hs, ih, SpriteDraw, restingCall]

theorem drawDragged_typed :
    ∀ (visit : List Stroke) (screen : List DrawCall),
      (∀ st ∈ visit, ∃ p, st.DraggingObject = .sprite p) →
      drawDragged screen visit = some (screen ++ visit.filterMap draggedCall) := by
  intro visit
  induction visit with
  | nil => intro screen _; simp [drawDragged]
  | cons st rest ih =>
    intro screen ht
    obtain ⟨p, hp⟩ := ht st (List.mem_cons_self _ _)
    have hrest : ∀ st ∈ rest, ∃ p, st.DraggingObject = .sprite p := fun s1 hs1 =>
      ht s1 (List.mem_cons_of_mem _ hs1)
    cases p with
    | none =>
      simp only [drawDragged, hp, DragObj.assertSprite, ih screen hrest]
      simp [List.filterMap_cons, draggedCall, hp]
    | some q =>
      simp only [drawDragged, hp, DragObj.assertSprite, ih _ hrest]
      simp [List.filterMap_cons, draggedCall, hp, SpriteDraw]

theorem Draw_typed (g : Game) (screen : List DrawCall) (visit1 visit2 : List Stroke)
    (hv1 : visit1.Perm g.strokes) (hv2 : visit2.Perm g.strokes)
    (ht : ∀ st ∈ g.strokes, ∃ p, st.DraggingObject = .sprite p) :
    g.Draw screen visit1 visit2 =
      some (g, screen ++
        (g.sprites.filter (fun s =>
          decide (∀ st ∈ g.strokes, st.DraggingObject ≠ .sprite (some s)))).map restingCall ++
        visit2.filterMap draggedCall) := by
  obtain ⟨ds, hds, hmem⟩ := collectDragging_typed visit1 []
    (fun st hst => ht st (hv1.subset hst))
  have hd := drawDragged_typed visit2 (drawResting ds screen g.sprites)
    (fun st hst => ht st (hv2.subset hst))
  have hin : ∀ s, s ∈ ds ↔ ∃ st ∈ g.strokes, st.DraggingObject = .sprite (some s) := by
    intro s
    rw [hmem s]
    simp only [List.not_mem_nil, false_or]
    constructor
    · rintro ⟨st, h1, h2⟩; exact ⟨st, hv1.subset h1, h2⟩
    · rintro ⟨st, h1, h2⟩; exact ⟨st, hv1.symm.subset h1, h2⟩
  have hfilt : g.sprites.filter (fun s => decide (s ∉ ds)) =
      g.sprites.filter (fun s =>
        decide (∀ st ∈ g.strokes, st.DraggingObject ≠ .sprite (some s))) := by
    apply List.filter_congr
    intro s _
    simp only [hin s, decide_eq_decide]
    push_neg
    rfl
  rw [drawResting_eq, hfilt] at hd
  unfold Game.Draw
  simp only [hds, drawResting_eq, hfilt, hd]

/-- C7: on every state reachable from `NewGame` by `Update` calls, the dragging object of
every active stroke has dynamic type `*Sprite` and its sprite is an element of
`g.sprites` (so the index search of `updateStroke` finds an index in range), `Update`
returns the nil error without a panic for every host input and every iteration order,
and `Draw` returns without a panic. -/
theorem Update_Draw_infallible (screenWidth screenHeight : Int) (images : List Image)
    (rand : Nat → Nat) (g : Game) (hf : HostFrame)
    (hr : Reachable screenWidth screenHeight images rand g hf) :
    (∀ st ∈ g.strokes, ∃ p : Option SpritePtr, st.DraggingObject = .sprite p ∧
      ∀ s, p = some s → s ∈ g.sprites ∧ 0 ≤ indexOfSprite s g.sprites 0 ∧
        indexOfSprite s g.sprites 0 < g.sprites.length) ∧
    (∀ (cur : HostFrame) (visit : List Stroke),
      visit.Perm (g.press { prev := hf, cur := cur }).strokes →
      ∃ g1, g.Update { prev := hf, cur := cur } visit = some (g1, none)) ∧
    (∀ (screen : List DrawCall) (visit1 visit2 : List Stroke),
      visit1.Perm g.strokes → visit2.Perm g.strokes →
      ∃ screen1, g.Draw screen visit1 visit2 = some (g, screen1)) := by
  have ha := reachable_attached screenWidth screenHeight images rand g hf hr
  refine ⟨?_, ?_, ?_⟩
  · intro st hst
    obtain ⟨p, hd, hm⟩ := ha st hst
    refine ⟨p, hd, fun s hs => ?_⟩
    obtain ⟨i, hi, _, _, hidx⟩ := indexOfSprite_mem s g.sprites 0 (hm s hs)
    rw [hidx]
    exact ⟨hm s hs, by omega, by omega⟩
  · intro cur visit hv
    obtain ⟨g1, h1, _⟩ := Update_total g { prev := hf, cur := cur } visit ha hv
    exact ⟨g1, h1⟩
  · intro screen visit1 visit2 hv1 hv2
    exact ⟨_, Draw_typed g screen visit1 visit2 hv1 hv2
      (fun st hst => (ha st hst).imp fun p hp => hp.1)⟩

/-- C7, an example: in the demo session, with the back sprite being dragged, the frame
of the release and a `Draw` both return. -/
theorem Update_Draw_infallible_witness :
    Reachable 640 480 demoImages demoRand demoGame1 (frameAt true 5 15) ∧
      demoGame1.strokes.map (fun st => st.DraggingObject) = [.sprite (some 0)] ∧
      (∃ g1, demoGame1.Update { prev := frameAt true 5 15, cur := frameAt false 105 115 }
        demoGame1.strokes = some (g1, none)) ∧
      ∃ screen1, demoGame1.Draw [] demoGame1.strokes demoGame1.strokes =
        some (demoGame1, screen1) :=
  ⟨demo_reachable1, by decide,
    (Update_Draw_infallible 640 480 demoImages demoRand demoGame1 _ demo_reachable1).2.1
      (frameAt false 105 115) demoGame1.strokes (List.Perm.refl _),
    (Update_Draw_infallible 640 480 demoImages demoRand demoGame1 _ demo_reachable1).2.2
      [] demoGame1.strokes demoGame1.strokes (List.Perm.refl _) (List.Perm.refl _)⟩

/-! ## The touch identifiers -/

/-- C8, the code at a frame on which the host reports the touch 7: `Update` returns with
`g.touchIDs` still empty and with no stroke created for the touch. -/
theorem Update_leaves_touchIDs :
    touchPress.cur.touchIDs = [7] ∧
      (demoGame0.Update touchPress (demoGame0.press touchPress).strokes).map
        (fun r => (r.1.touchIDs, r.1.strokes, r.2)) = some ([], [], none) := by
  constructor
  · rfl
  · decide

/-! ## Draw -/

theorem demo_reachableMid :
    Reachable 640 480 demoImages demoRand demoGameMid (frameAt true 55 65) :=
  Reachable.update demoGame1 (frameAt true 5 15) (frameAt true 55 65) _ demoGameMid none
    demo_reachable1 (List.Perm.refl _) rfl

/-- C10: in every game state the program reaches (from `NewGame` by `Update` calls), and
for every order of iteration over the stroke map, `Draw` returns and issues first one call
with offset `(0, 0)` and opacity 1 for each sprite of `g.sprites` attached to no stroke of
`g.strokes`, in `g.sprites` order, then one call with opacity 1/2 and offset
`PositionDiff` for each stroke with an attached sprite (in the order of the last loop);
the game, hence `g.sprites`, every sprite position and `g.strokes`, is unchanged. -/
theorem Draw_calls (screenWidth screenHeight : Int) (images : List Image)
    (rand : Nat → Nat) (g : Game) (hf : HostFrame)
    (hr : Reachable screenWidth screenHeight images rand g hf)
    (screen : List DrawCall) (visit1 visit2 : List Stroke)
    (hv1 : visit1.Perm g.strokes) (hv2 : visit2.Perm g.strokes) :
    g.Draw screen visit1 visit2 =
      some (g, screen ++
        (g.sprites.filter (fun s =>
          decide (∀ st ∈ g.strokes, st.DraggingObject ≠ .sprite (some s)))).map
            (fun s => { sprite := s, dx := 0, dy := 0, alpha := 1 }) ++
        visit2.filterMap (fun st =>
          match st.DraggingObject with
          | .sprite (some sprite) =>
            some { sprite := sprite, dx := st.PositionDiff.1, dy := st.PositionDiff.2,
                   alpha := 1 / 2 }
          | _ => none)) :=
  Draw_typed g screen visit1 visit2 hv1 hv2 (fun st hst =>
    (reachable_attached screenWidth screenHeight images rand g hf hr st hst).imp
      fun _ hp => hp.1)

/-- C10, an example: in the demo session in mid-drag the sprites 1 and 2 are drawn
in place at full opacity, then the dragged sprite 0 at offset `(50, 50)` and opacity 1/2. -/
theorem Draw_calls_witness :
    Reachable 640 480 demoImages demoRand demoGameMid (frameAt true 55 65) ∧
      demoGameMid.sprites = [0, 1, 2] ∧
      demoGameMid.strokes.Perm demoGameMid.strokes ∧
      demoGameMid.Draw [] demoGameMid.strokes demoGameMid.strokes =
        some (demoGameMid,
          [{ sprite := 1, dx := 0, dy := 0, alpha := 1 },
           { sprite := 2, dx := 0, dy := 0, alpha := 1 },
           { sprite := 0, dx := 50, dy := 50, alpha := 1 / 2 }]) :=
  ⟨demo_reachableMid, by decide, List.Perm.refl _,
    (Draw_calls 640 480 demoImages demoRand demoGameMid _ demo_reachableMid []
      demoGameMid.strokes demoGameMid.strokes (List.Perm.refl _)
      (List.Perm.refl _)).trans (by rfl)⟩

/-! ## One stroke per input source -/

theorem Stroke.Update_released (st : Stroke) (h : Host) (hr : st.released = false) :
    (st.Update h).released = st.source.IsJustReleased h := by
  unfold Stroke.Update
  simp only [hr, Bool.false_eq_true, if_false]
  cases hj : st.source.IsJustReleased h <;> simp [hr]

theorem reachable_single_mouse (screenWidth screenHeight : Int) (images : List Image)
    (rand : Nat → Nat) (g : Game) (hf : HostFrame)
    (hr : Reachable screenWidth screenHeight images rand g hf) :
    g.touchIDs = [] ∧ g.strokes.length ≤ 1 ∧
      ∀ st ∈ g.strokes, st.source = .MouseStrokeSource ∧ st.released = false ∧
        hf.mouseDown = true := by
  induction hr with
  | init g h1 hn =>
    obtain ⟨_, hs, ht⟩ := NewGame_init _ _ _ _ g hn
    refine ⟨ht, by simp [hs], fun st hst => ?_⟩
    rw [hs] at hst
    cases hst
  | update g prev cur visit g1 err _ hv hu ih =>
    obtain ⟨hT, hlen, hall⟩ := ih
    obtain ⟨_, ht1, _, hk⟩ := Update_sprites_perm g _ visit g1 err hu
    have hpress := press_eq g { prev := prev, cur := cur }
    rw [hT] at hpress
    simp only [List.map_nil, List.append_nil] at hpress
    by_cases hjp : Host.IsMouseButtonJustPressed { prev := prev, cur := cur } = true
    · have hdown : cur.mouseDown = true ∧ prev.mouseDown = false := by
        simpa [Host.IsMouseButtonJustPressed] using hjp
      have hempty : g.strokes = [] := by
        cases hg : g.strokes with
        | nil => rfl
        | cons a rest =>
          have := (hall a (by simp [hg])).2.2
          rw [hdown.2] at this
          cases this
      simp only [hjp, if_true, hempty, List.nil_append] at hpress
      rw [hpress] at hv
      have hvis : visit = [g.createStroke .MouseStrokeSource { prev := prev, cur := cur }] :=
        List.perm_singleton.mp hv
      refine ⟨ht1.trans hT, ?_, ?_⟩
      · rw [hk, hvis]
        exact (List.length_filter_le _ _).trans (by simp)
      · intro st hst
        rw [hk, hvis] at hst
        obtain ⟨hm, hrel⟩ := List.mem_filter.mp hst
        simp only [List.map_cons, List.map_nil, List.mem_singleton] at hm
        subst hm
        exact ⟨by rw [Stroke.Update_source]; rfl, by simpa [Stroke.IsReleased] using hrel,
          hdown.1⟩
    · simp only [hjp, Bool.false_eq_true, if_false, List.append_nil] at hpress
      rw [hpress] at hv
      refine ⟨ht1.trans hT, ?_, ?_⟩
      · rw [hk]
        refine (List.length_filter_le _ _).trans ?_
        rw [List.length_map, hv.length_eq]
        exact hlen
      · intro st hst
        rw [hk] at hst
        obtain ⟨hm, hrel⟩ := List.mem_filter.mp hst
        obtain ⟨st0, hst0, rfl⟩ := List.mem_map.mp hm
        obtain ⟨hsrc, hr0, hprev⟩ := hall st0 (hv.subset hst0)
        have hrel1 : (st0.Update { prev := prev, cur := cur }).released = false := by
          simpa [Stroke.IsReleased] using hrel
        refine ⟨by rw [Stroke.Update_source]; exact hsrc, hrel1, ?_⟩
        rw [Stroke.Update_released st0 _ hr0, hsrc] at hrel1
        simpa [StrokeSource.IsJustReleased, hprev] using hrel1

/-- C9: in every state reachable from `NewGame` by `Update` calls, under every host
input sequence and every iteration order, `g.strokes` holds at most one stroke with the
mouse source and, for each touch identifier, at most one stroke with the touch source
of that identifier; every stroke it holds is of a source pressed at the latest tick. -/
theorem at_most_one_stroke_per_source (screenWidth screenHeight : Int) (images : List Image)
    (rand : Nat → Nat) (g : Game) (hf : HostFrame)
    (hr : Reachable screenWidth screenHeight images rand g hf) :
    g.strokes.countP (fun st => decide (st.source = .MouseStrokeSource)) ≤ 1 ∧
    (∀ id : TouchID,
      g.strokes.countP (fun st => decide (st.source = .TouchStrokeSource id)) ≤ 1) ∧
    (∀ st ∈ g.strokes, match st.source with
      | .MouseStrokeSource => hf.mouseDown = true
      | .TouchStrokeSource id => id ∈ hf.touchIDs) := by
  obtain ⟨_, hlen, hall⟩ := reachable_single_mouse screenWidth screenHeight images rand g hf hr
  refine ⟨(List.countP_le_length _).trans hlen, fun id => (List.countP_le_length _).trans hlen, ?_⟩
  intro st hst
  obtain ⟨hsrc, _, hdown⟩ := hall st hst
  rw [hsrc]
  exact hdown

/-- C9, an example: after the press of the demo session the active set holds one stroke,
of the mouse. -/
theorem at_most_one_stroke_per_source_witness :
    Reachable 640 480 demoImages demoRand demoGame1 (frameAt true 5 15) ∧
      demoGame1.strokes.map (fun st => st.source) = [.MouseStrokeSource] ∧
      demoGame1.strokes.countP (fun st => decide (st.source = .MouseStrokeSource)) ≤ 1 :=
  ⟨demo_reachable1, by decide,
    (at_most_one_stroke_per_source 640 480 demoImages demoRand demoGame1 _ demo_reachable1).1⟩

end Drag
